import Mathlib

/-!
Verification of the bazel archive-to-json helper
(`go/tools/gopackagesdriver/archive_to_json.go`).

The development shallowly embeds the Go source: the escaped-delimiter
splitter `splitEscapedString`, the key-value decoder `parseKeyValueArg`,
the flag-dispatch parser (`parseBazelArguments`, `Parse`, `WithArg`,
`NewBazelArgsParser`) and the archive assembler
`parseArchiveAndOutputPath`.  Go strings are modelled as Lean strings
(rune iteration becomes iteration over `String.data`), the Go
`map[string]arg` registry becomes a function `String → Option setter`
built by successive overrides, side-effecting callbacks become explicit
state passing, and the `io.Reader` obtained from the params-reader
getter is modelled by a function returning the line tokens of the
stream.  `Parse` additionally records, as an event trace, which paths
the stream provider was invoked for and which obtained streams were
closed; the Go source contains no close call on the params reader, so
the embedding never emits a close event.
-/

namespace ArchiveToJson

/-- Embedding of `splitEscapedString`'s scanning loop.  `field` is the
`strings.Builder` under construction, `values` the accumulated fields,
`escaped` the escape flag.  The branch order follows the Go `switch`:
`escaped` first, then `r == escape`, then `r == delimiter`. -/
def splitEscapedStringAux (delimiter escape : Char) :
    List Char → Bool → List Char → List (List Char) → List (List Char)
  | [], _, field, values => values ++ [field]
  | r :: rest, escaped, field, values =>
    if escaped then
      splitEscapedStringAux delimiter escape rest false (field ++ [r]) values
    else if r = escape then
      splitEscapedStringAux delimiter escape rest true field values
    else if r = delimiter then
      splitEscapedStringAux delimiter escape rest false [] (values ++ [field])
    else
      splitEscapedStringAux delimiter escape rest false (field ++ [r]) values

/-- Embedding of `splitEscapedString`: iterate over the runes of `value`
with the escape-flag state machine and return the fields. -/
def splitEscapedString (value : String) (delimiter escape : Char) : List String :=
  (splitEscapedStringAux delimiter escape value.data false [] []).map (fun l => String.mk l)

/-- The number of unescaped delimiter occurrences in a rune list,
counted by the same escape-flag state machine that drives
`splitEscapedStringAux`: a delimiter occurrence counts exactly when the
scanner meets it in the unescaped state (and, when `delimiter = escape`,
the escape branch wins, as in the Go `switch`). -/
def countUnescapedDelims (delimiter escape : Char) : List Char → Bool → Nat
  | [], _ => 0
  | r :: rest, escaped =>
    if escaped then countUnescapedDelims delimiter escape rest false
    else if r = escape then countUnescapedDelims delimiter escape rest true
    else if r = delimiter then countUnescapedDelims delimiter escape rest false + 1
    else countUnescapedDelims delimiter escape rest false

/-- The escape flag the scanner holds after consuming a rune list,
starting from flag `b`.  The delimiter plays no role in the flag
transitions. -/
def finalEscaped (escape : Char) : List Char → Bool → Bool
  | [], b => b
  | r :: rest, b =>
    if b then finalEscaped escape rest false
    else if r = escape then finalEscaped escape rest true
    else finalEscaped escape rest false

theorem splitAux_step_escaped (delimiter escape r : Char) (rest field : List Char)
    (values : List (List Char)) :
    splitEscapedStringAux delimiter escape (r :: rest) true field values =
      splitEscapedStringAux delimiter escape rest false (field ++ [r]) values := rfl

theorem splitAux_step_escape (delimiter escape r : Char) (rest field : List Char)
    (values : List (List Char)) (he : r = escape) :
    splitEscapedStringAux delimiter escape (r :: rest) false field values =
      splitEscapedStringAux delimiter escape rest true field values := by
  simp [splitEscapedStringAux, he]

theorem splitAux_step_delim (delimiter escape r : Char) (rest field : List Char)
    (values : List (List Char)) (he : ¬r = escape) (hd : r = delimiter) :
    splitEscapedStringAux delimiter escape (r :: rest) false field values =
      splitEscapedStringAux delimiter escape rest false [] (values ++ [field]) := by
  subst hd
  simp [splitEscapedStringAux, he]

theorem splitAux_step_other (delimiter escape r : Char) (rest field : List Char)
    (values : List (List Char)) (he : ¬r = escape) (hd : ¬r = delimiter) :
    splitEscapedStringAux delimiter escape (r :: rest) false field values =
      splitEscapedStringAux delimiter escape rest false (field ++ [r]) values := by
  simp [splitEscapedStringAux, he, hd]

theorem count_step_escaped (delimiter escape r : Char) (rest : List Char) :
    countUnescapedDelims delimiter escape (r :: rest) true =
      countUnescapedDelims delimiter escape rest false := rfl

theorem count_step_escape (delimiter escape r : Char) (rest : List Char) (he : r = escape) :
    countUnescapedDelims delimiter escape (r :: rest) false =
      countUnescapedDelims delimiter escape rest true := by
  simp [countUnescapedDelims, he]

theorem count_step_delim (delimiter escape r : Char) (rest : List Char)
    (he : ¬r = escape) (hd : r = delimiter) :
    countUnescapedDelims delimiter escape (r :: rest) false =
      countUnescapedDelims delimiter escape rest false + 1 := by
  subst hd
  simp [countUnescapedDelims, he]

theorem count_step_other (delimiter escape r : Char) (rest : List Char)
    (he : ¬r = escape) (hd : ¬r = delimiter) :
    countUnescapedDelims delimiter escape (r :: rest) false =
      countUnescapedDelims delimiter escape rest false := by
  simp [countUnescapedDelims, he, hd]

theorem finalEscaped_step_escaped (escape r : Char) (rest : List Char) :
    finalEscaped escape (r :: rest) true = finalEscaped escape rest false := rfl

theorem finalEscaped_step_escape (escape r : Char) (rest : List Char) (he : r = escape) :
    finalEscaped escape (r :: rest) false = finalEscaped escape rest true := by
  simp [finalEscaped, he]

theorem finalEscaped_step_other (escape r : Char) (rest : List Char) (he : ¬r = escape) :
    finalEscaped escape (r :: rest) false = finalEscaped escape rest false := by
  simp [finalEscaped, he]

theorem splitEscapedStringAux_length (delimiter escape : Char) :
    ∀ (cs : List Char) (b : Bool) (field : List Char) (values : List (List Char)),
      (splitEscapedStringAux delimiter escape cs b field values).length =
        values.length + countUnescapedDelims delimiter escape cs b + 1 := by
  intro cs
  induction cs with
  | nil =>
    intro b field values
    simp [splitEscapedStringAux, countUnescapedDelims]
  | cons r rest ih =>
    intro b field values
    cases b with
    | true =>
      rw [splitAux_step_escaped, count_step_escaped]
      exact ih false (field ++ [r]) values
    | false =>
      by_cases he : r = escape
      · rw [splitAux_step_escape _ _ _ _ _ _ he, count_step_escape _ _ _ _ he]
        exact ih true field values
      · by_cases hd : r = delimiter
        · rw [splitAux_step_delim _ _ _ _ _ _ he hd, count_step_delim _ _ _ _ he hd,
            ih false [] (values ++ [field])]
          simp [List.length_append]
          omega
        · rw [splitAux_step_other _ _ _ _ _ _ he hd, count_step_other _ _ _ _ he hd]
          exact ih false (field ++ [r]) values

theorem splitEscapedStringAux_append_escape (delimiter escape : Char) :
    ∀ (cs : List Char) (b : Bool) (field : List Char) (values : List (List Char)),
      finalEscaped escape cs b = false →
        splitEscapedStringAux delimiter escape (cs ++ [escape]) b field values =
          splitEscapedStringAux delimiter escape cs b field values := by
  intro cs
  induction cs with
  | nil =>
    intro b field values h
    simp only [finalEscaped] at h
    subst h
    rw [List.nil_append, splitAux_step_escape _ _ _ _ _ _ rfl]
    simp [splitEscapedStringAux]
  | cons r rest ih =>
    intro b field values h
    cases b with
    | true =>
      rw [finalEscaped_step_escaped] at h
      rw [List.cons_append, splitAux_step_escaped, splitAux_step_escaped]
      exact ih false (field ++ [r]) values h
    | false =>
      by_cases he : r = escape
      · rw [finalEscaped_step_escape _ _ _ he] at h
        rw [List.cons_append, splitAux_step_escape _ _ _ _ _ _ he,
          splitAux_step_escape _ _ _ _ _ _ he]
        exact ih true field values h
      · rw [finalEscaped_step_other _ _ _ he] at h
        by_cases hd : r = delimiter
        · rw [List.cons_append, splitAux_step_delim _ _ _ _ _ _ he hd,
            splitAux_step_delim _ _ _ _ _ _ he hd]
          exact ih false [] (values ++ [field]) h
        · rw [List.cons_append, splitAux_step_other _ _ _ _ _ _ he hd,
            splitAux_step_other _ _ _ _ _ _ he hd]
          exact ih false (field ++ [r]) values h

/-- Claim C3: for every input string and every choice of delimiter and
escape character, `splitEscapedString` returns at least one element, the
number of elements equals the number of unescaped delimiter occurrences
plus one, and the empty input yields exactly one empty field. -/
theorem split_field_count (value : String) (delimiter escape : Char) :
    (splitEscapedString value delimiter escape).length =
      countUnescapedDelims delimiter escape value.data false + 1 ∧
    1 ≤ (splitEscapedString value delimiter escape).length ∧
    splitEscapedString "" delimiter escape = [""] := by
  have hlen : (splitEscapedString value delimiter escape).length =
      countUnescapedDelims delimiter escape value.data false + 1 := by
    unfold splitEscapedString
    rw [List.length_map]
    simpa using splitEscapedStringAux_length delimiter escape value.data false [] []
  refine ⟨hlen, ?_, ?_⟩
  · omega
  · rfl

/-- Claim C7: if scanning `s` ends in the unescaped state, appending one
escape character yields the same fields as splitting `s` itself — the
dangling escape is silently dropped. -/
theorem split_dangling_escape_dropped (s : String) (delimiter escape : Char)
    (h : finalEscaped escape s.data false = false) :
    splitEscapedString (s.push escape) delimiter escape =
      splitEscapedString s delimiter escape := by
  unfold splitEscapedString
  have hdata : (s.push escape).data = s.data ++ [escape] := by
    cases s
    rfl
  rw [hdata, splitEscapedStringAux_append_escape delimiter escape s.data false [] [] h]

/-- Witness for claim C7 at the concrete input "ab". -/
theorem split_dangling_escape_dropped_witness :
    finalEscaped '\\' "ab".data false = false ∧
      splitEscapedString (String.push "ab" '\\') '=' '\\' =
        splitEscapedString "ab" '=' '\\' :=
  ⟨by decide, split_dangling_escape_dropped "ab" '=' '\\' (by decide)⟩

/-- Claim C8: splitting the 15-character input
foo backslash backslash backslash = = backslash backslash b a backslash = r
on an unescaped equals sign keeps escaped delimiters and escaped escapes
literally and yields exactly the two claimed 5-character fields. -/
theorem split_escaped_concrete :
    splitEscapedString
        (String.mk ['f', 'o', 'o', '\\', '\\', '\\', '=', '=', '\\', '\\', 'b', 'a', '\\', '=', 'r'])
        '=' '\\' =
      [String.mk ['f', 'o', 'o', '\\', '='], String.mk ['\\', 'b', 'a', '=', 'r']] := by
  decide

/-- Typed rendering of the errors the Go parser builds with
`errors.New`. -/
inductive ParseError where
  | unexpectedFlag (token : String)
  | usage
  | getter (msg : String)
deriving DecidableEq, Repr

/-- The message text carried by each error, as produced in the Go
source: `fmt.Sprintf` for the unexpected-flag case, the literal usage
string, and the propagated getter error. -/
def ParseError.message : ParseError → String
  | ParseError.unexpectedFlag token => "unexpected flag " ++ token
  | ParseError.usage => "expected single argument with param file"
  | ParseError.getter msg => msg

/-- Outcome tag of a `Parse` call: normal return with nil error, return
with a non-nil error, or a Go runtime panic (out-of-range index). -/
inductive ParseResult where
  | ok
  | error (e : ParseError)
  | panic (msg : String)
deriving DecidableEq, Repr

/-- Embedding of `bazelArgsParser`.  The Go `map[string]arg` registry
becomes a lookup function (built by overriding, so the last `WithArg`
registration for a name wins); the side-effecting `Setter func(string)`
callbacks become state transformers `String → σ → σ` over the
caller-owned state `σ`; the `paramsReaderGetter` collaborator, which in
Go returns an `io.Reader` that `Parse` wraps in a line scanner, is
modelled as returning the line tokens of the stream (or the propagated
open error). -/
structure BazelArgsParser (σ : Type) where
  args : String → Option (String → σ → σ)
  paramsReaderGetter : String → Except String (List String)

/-- Embedding of `WithArg`: register `setter` under `flag`,
unconditionally overwriting any prior registration for the same name. -/
def BazelArgsParser.WithArg {σ : Type} (p : BazelArgsParser σ) (flag : String)
    (setter : String → σ → σ) : BazelArgsParser σ :=
  { p with args := fun token => if token = flag then some setter else p.args token }

/-- Embedding of `NewBazelArgsParser`: empty registry.  The default
`paramsReaderGetter` (`os.Open` plus line scanning) is abstracted as the
function `fs` modelling the file system. -/
def NewBazelArgsParser {σ : Type} (fs : String → Except String (List String)) :
    BazelArgsParser σ :=
  { args := fun _ => none, paramsReaderGetter := fs }

/-- Embedding of `parseBazelArguments`: the dispatch loop over the token
stream, with the Go local `currentSetter` (nil-initialised) made an
explicit argument and the callback side effects threaded through the
state.  Mirroring the Go in-place mutation, the state reached so far is
returned even when the loop aborts with an error. -/
def parseBazelArguments {σ : Type} (args : String → Option (String → σ → σ)) :
    Option (String → σ → σ) → List String → σ → σ × Option ParseError
  | _, [], st => (st, none)
  | currentSetter, token :: rest, st =>
    match args token with
    | some setter => parseBazelArguments args (some setter) rest st
    | none =>
      match currentSetter with
      | none => (st, some (ParseError.unexpectedFlag token))
      | some setter => parseBazelArguments args currentSetter rest (setter token st)

/-- Full observable outcome of one `Parse` call: the final caller state,
the trace of paths the stream provider was invoked for, the trace of
obtained streams that were closed, and the result tag.  The Go source
never calls any close on the params reader (its static type `io.Reader`
has no such method), so `Parse` below never appends to `streamsClosed`. -/
structure ParseOutcome (σ : Type) where
  state : σ
  getterCalls : List String
  streamsClosed : List String
  result : ParseResult
deriving DecidableEq, Repr

/-- Lift the dispatch-loop error of `parseBazelArguments` to a result
tag. -/
def toResult : Option ParseError → ParseResult
  | none => ParseResult.ok
  | some e => ParseResult.error e

/-- Embedding of `Parse`.  Empty argument lists succeed immediately.
Otherwise the first byte of the first argument is inspected
(`firstArgument[0]` in Go — a runtime panic when the first argument is
empty, modelled by the `none` branch of `head?`).  A first argument not
starting with the marker routes the whole list through the dispatch
loop; otherwise a sole `@`-argument has its marker stripped
(`firstArgument[1:]`) and the stream provider is asked for the token
stream, whose lines are dispatched. -/
def Parse {σ : Type} (p : BazelArgsParser σ) (arguments : List String) (st : σ) :
    ParseOutcome σ :=
  match arguments with
  | [] => ⟨st, [], [], ParseResult.ok⟩
  | firstArgument :: _ =>
    match firstArgument.data.head? with
    | none => ⟨st, [], [], ParseResult.panic "index out of range"⟩
    | some c =>
      if c ≠ '@' then
        let r := parseBazelArguments p.args none arguments st
        ⟨r.1, [], [], toResult r.2⟩
      else if arguments.length > 1 then
        ⟨st, [], [], ParseResult.error ParseError.usage⟩
      else
        let path := String.mk (firstArgument.data.drop 1)
        match p.paramsReaderGetter path with
        | Except.error msg => ⟨st, [path], [], ParseResult.error (ParseError.getter msg)⟩
        | Except.ok tokens =>
          let r := parseBazelArguments p.args none tokens st
          ⟨r.1, [path], [], toResult r.2⟩

/-- Registry instantiation used to observe callback invocations, as the
repository test does: each registered flag's callback appends the pair
(flag, value) to a caller-owned event list. -/
def recordSetters (flags : List String) :
    String → Option (String → List (String × String) → List (String × String)) :=
  fun token =>
    if flags.contains token then some (fun value evs => evs ++ [(token, value)]) else none

/-- Parser with recording callbacks for `flags` over the stream provider
`fs`. -/
def recordParser (flags : List String) (fs : String → Except String (List String)) :
    BazelArgsParser (List (String × String)) :=
  { args := recordSetters flags, paramsReaderGetter := fs }

/-- Stream provider that always fails; used where the indirection path
is not exercised. -/
def noFs : String → Except String (List String) := fun _ => Except.error "no file"

/-- Modelled from the spec: the flag-grouping contract of the dispatch
loop, written from the spec words — a flag token switches the active
flag and is never delivered as a value, every other token is delivered
to the most recently preceding flag, and a value before the first flag
aborts with an unexpected-token error naming it. -/
def specFlagGrouping (flags : List String) :
    Option String → List String → List (String × String) × Option ParseError
  | _, [] => ([], none)
  | cur, token :: rest =>
    if flags.contains token then specFlagGrouping flags (some token) rest
    else
      match cur with
      | none => ([], some (ParseError.unexpectedFlag token))
      | some f =>
        let r := specFlagGrouping flags (some f) rest
        ((f, token) :: r.1, r.2)

theorem parseBazel_record_eq_spec (flags : List String) :
    ∀ (tokens : List String) (cur : Option String) (acc : List (String × String)),
      parseBazelArguments (recordSetters flags)
          (cur.map fun f => fun value evs => evs ++ [(f, value)]) tokens acc =
        (acc ++ (specFlagGrouping flags cur tokens).1,
          (specFlagGrouping flags cur tokens).2) := by
  intro tokens
  induction tokens with
  | nil =>
    intro cur acc
    simp [parseBazelArguments, specFlagGrouping]
  | cons t rest ih =>
    intro cur acc
    by_cases hf : flags.contains t
    · have hm : t ∈ flags := by simpa using hf
      have hr : recordSetters flags t = some (fun value evs => evs ++ [(t, value)]) := by
        simp [recordSetters, hm]
      simp only [parseBazelArguments, hr, specFlagGrouping, if_pos hf]
      have := ih (some t) acc
      simpa using this
    · have hm : t ∉ flags := by simpa using hf
      have hr : recordSetters flags t = none := by
        simp [recordSetters, hm]
      cases cur with
      | none =>
        simp [parseBazelArguments, hr, specFlagGrouping, hf, hm]
      | some f =>
        simp only [parseBazelArguments, hr, Option.map_some', specFlagGrouping, if_neg hf]
        have := ih (some f) (acc ++ [(f, t)])
        simp only [Option.map_some'] at this
        rw [this]
        simp

theorem specFlagGrouping_values_not_flags (flags : List String) :
    ∀ (tokens : List String) (cur : Option String),
      ((specFlagGrouping flags cur tokens).1.all fun ev => !(flags.contains ev.2)) = true := by
  intro tokens
  induction tokens with
  | nil =>
    intro cur
    simp [specFlagGrouping]
  | cons t rest ih =>
    intro cur
    by_cases hf : flags.contains t
    · simp only [specFlagGrouping, if_pos hf]
      exact ih (some t)
    · have hm : t ∉ flags := by simpa using hf
      cases cur with
      | none => simp [specFlagGrouping, hf, hm]
      | some f =>
        simp only [specFlagGrouping, if_neg hf, List.all_cons]
        rw [ih (some f)]
        simp [hf, hm]

/-- Claim C4: with flags --a and --b registered, the input
--a x y --b z invokes the --a callback exactly twice with x then y and
the --b callback once with z; in general the dispatch loop delivers
every run of consecutive non-flag tokens, in stream order, to the
callback of the most recently preceding flag token, and a registered
flag token is never passed as a value. -/
theorem flag_grouping :
    (∀ (flags tokens : List String),
        parseBazelArguments (recordSetters flags) none tokens [] =
          specFlagGrouping flags none tokens) ∧
    (∀ (flags tokens : List String),
        ((specFlagGrouping flags none tokens).1.all
          fun ev => !(flags.contains ev.2)) = true) ∧
    Parse (recordParser ["--a", "--b"] noFs) ["--a", "x", "y", "--b", "z"] [] =
      ⟨[("--a", "x"), ("--a", "y"), ("--b", "z")], [], [], ParseResult.ok⟩ := by
  refine ⟨?_, ?_, ?_⟩
  · intro flags tokens
    have := parseBazel_record_eq_spec flags tokens none []
    simpa using this
  · intro flags tokens
    exact specFlagGrouping_values_not_flags flags tokens none
  · decide

/-- Claim C5: a value token at the head of the stream (before any flag)
aborts the dispatch loop with an unexpected-token error naming it, with
no callback invoked, and the error message contains the token; in
particular Parse on x --a y fails naming x with no event recorded. -/
theorem leading_value_rejected :
    (∀ (σ : Type) (args : String → Option (String → σ → σ)) (t : String)
        (rest : List String) (st : σ), args t = none →
          parseBazelArguments args none (t :: rest) st =
            (st, some (ParseError.unexpectedFlag t))) ∧
    (∀ t : String, ∃ pre : String,
        ParseError.message (ParseError.unexpectedFlag t) = pre ++ t) ∧
    Parse (recordParser ["--a"] noFs) ["x", "--a", "y"] [] =
      ⟨[], [], [], ParseResult.error (ParseError.unexpectedFlag "x")⟩ := by
  refine ⟨?_, ?_, ?_⟩
  · intro σ args t rest st h
    simp [parseBazelArguments, h]
  · intro t
    exact ⟨"unexpected flag ", rfl⟩
  · decide

/-- Witness for claim C5 at the concrete input x --a y. -/
theorem leading_value_rejected_witness :
    parseBazelArguments (recordSetters ["--a"]) none ["x", "--a", "y"] [] =
      ([], some (ParseError.unexpectedFlag "x")) :=
  leading_value_rejected.1 (List (String × String)) (recordSetters ["--a"]) "x"
    ["--a", "y"] [] rfl

/-- Claim C6: a first argument starting with the indirection marker
together with any further argument is rejected with the usage error, and
the stream provider is never invoked (the getter-call trace is empty),
for every parser and every stream provider. -/
theorem indirection_exclusive {σ : Type} (p : BazelArgsParser σ) (st : σ)
    (first : String) (rest : List String)
    (h1 : first.data.head? = some '@') (h2 : rest ≠ []) :
    Parse p (first :: rest) st = ⟨st, [], [], ParseResult.error ParseError.usage⟩ := by
  have hlen : (first :: rest).length > 1 := by
    cases rest with
    | nil => exact absurd rfl h2
    | cons a l => simp [List.length_cons]
  simp only [Parse, h1]
  simp [hlen, h2]

/-- Witness for claim C6 at the concrete input with marker argument and
one extra literal token. -/
theorem indirection_exclusive_witness :
    Parse (recordParser ["--a"] noFs) ["@file.txt", "extra"] [] =
      ⟨[], [], [], ParseResult.error ParseError.usage⟩ :=
  indirection_exclusive (recordParser ["--a"] noFs) [] "@file.txt" ["extra"]
    (by decide) (by decide)

theorem toResult_ne_panic (o : Option ParseError) (msg : String) :
    toResult o ≠ ParseResult.panic msg := by
  cases o <;> simp [toResult]

/-- Claim C2 evidence: on the indirection path the stream provider is
invoked (the stream is obtained) and the close trace stays empty, both
on the success exit of the dispatch loop and on an error exit — the Go
source contains no close call on the params reader. -/
theorem params_stream_never_closed :
    Parse (recordParser ["--a"] (fun _ => Except.ok ["--a", "foo"])) ["@params.txt"] [] =
      ⟨[("--a", "foo")], ["params.txt"], [], ParseResult.ok⟩ ∧
    Parse (recordParser ["--a"] (fun _ => Except.ok ["bad"])) ["@params.txt"] [] =
      ⟨[], ["params.txt"], [], ParseResult.error (ParseError.unexpectedFlag "bad")⟩ := by
  constructor <;> decide

/-- Claim C9: inspecting the first byte of the first argument is in
bounds for every non-empty first argument — Parse never reaches the
panic outcome then — while the empty first argument makes the byte
access arguments[0][0] out of bounds, a runtime panic. -/
theorem first_byte_unguarded :
    (∀ (σ : Type) (p : BazelArgsParser σ) (st : σ) (first : String)
        (rest : List String) (msg : String), first ≠ "" →
          (Parse p (first :: rest) st).result ≠ ParseResult.panic msg) ∧
    Parse (recordParser [] noFs) [""] [] =
      ⟨[], [], [], ParseResult.panic "index out of range"⟩ := by
  constructor
  · intro σ p st first rest msg hne
    have hd : first.data ≠ [] := by
      intro hnil
      apply hne
      cases first with
      | mk l =>
        simp only [String.data] at hnil
        rw [hnil]
    cases hfd : first.data with
    | nil => exact absurd hfd hd
    | cons c cs =>
      simp only [Parse, hfd, List.head?]
      by_cases hc : c ≠ '@'
      · simp only [if_pos hc]
        exact toResult_ne_panic _ _
      · simp only [if_neg hc]
        by_cases hl : (first :: rest).length > 1
        · simp only [if_pos hl]
          simp
        · simp only [if_neg hl, List.drop_succ_cons, List.drop_zero]
          cases hg : p.paramsReaderGetter (String.mk cs) with
          | error m =>
            simp [String.mk, hg]
          | ok tokens =>
            simp only [String.mk, hg]
            exact toResult_ne_panic _ _
  · decide

/-- Witness for claim C9 at a concrete non-empty first argument. -/
theorem first_byte_unguarded_witness :
    (Parse (recordParser [] noFs) ["x"] []).result ≠
      ParseResult.panic "index out of range" :=
  first_byte_unguarded.1 (List (String × String)) (recordParser [] noFs) [] "x" []
    "index out of range" (by decide)

/-- Embedding of the `archive` struct.  The Go `map[string]string`
field `Imports` is modelled as an association list with overwrite
semantics on insert. -/
structure Archive where
  ID : String
  PkgPath : String
  ExportFile : String
  GoFiles : List String
  CompiledGoFiles : List String
  OtherFiles : List String
  Imports : List (String × String)
deriving DecidableEq, Repr

/-- The archive all of whose fields are zero values, as produced in
`main` (empty strings, nil slices, empty map). -/
def emptyArchive : Archive := ⟨"", "", "", [], [], [], []⟩

/-- Go map assignment m[k] = v on the association-list model: replace
the binding of `k` when present, append it otherwise. -/
def mapInsert : List (String × String) → String → String → List (String × String)
  | [], k, v => [(k, v)]
  | (k0, v0) :: rest, k, v =>
    if k0 = k then (k, v) :: rest else (k0, v0) :: mapInsert rest k v

/-- Go `strings.HasSuffix` on the rune-list view (the claims only
involve ASCII suffixes, where byte and rune suffixes coincide). -/
def hasSuffix (s suffix : String) : Bool :=
  suffix.data.isSuffixOf s.data

/-- Embedding of `parseKeyValueArg`: split on an equals sign with a
backslash escape; unless exactly two fields result, fail with the
malformed-pair error; otherwise insert key and value into the map. -/
def parseKeyValueArg (value : String) (m : List (String × String)) :
    Except String (List (String × String)) :=
  let fields := splitEscapedString value '=' '\\'
  if fields.length ≠ 2 then
    Except.error ("could not parse key value pair: " ++ value)
  else
    Except.ok (mapInsert m (fields.getD 0 "") (fields.getD 1 ""))

/-- State threaded through `parseArchiveAndOutputPath`: the archive
under construction and the `outputPath` local (zero value empty
string). -/
abbrev ArchiveState := Archive × String

/-- The parser built in `parseArchiveAndOutputPath` by chaining
`WithArg` registrations.  Each callback is the pure rendering of the Go
closure; in particular the `--direct-pkg` callback calls
`parseKeyValueArg` and discards its returned error, exactly as the Go
call statement does (the `Setter func(string)` type has no error
channel), so a malformed pair leaves the map unchanged and the error
vanishes. -/
def archiveParser (fs : String → Except String (List String)) :
    BazelArgsParser ArchiveState :=
  ((((((NewBazelArgsParser fs).WithArg "--id"
    (fun value s => ({ s.1 with ID := value }, s.2))).WithArg "--pkg-path"
    (fun value s => ({ s.1 with PkgPath := value }, s.2))).WithArg "--export-file"
    (fun value s => ({ s.1 with ExportFile := value }, s.2))).WithArg "--data-srcs"
    (fun value s =>
      (if hasSuffix value ".go" then
        { s.1 with GoFiles := s.1.GoFiles ++ [value],
                   CompiledGoFiles := s.1.CompiledGoFiles ++ [value] }
       else { s.1 with OtherFiles := s.1.OtherFiles ++ [value] }, s.2))).WithArg "--direct-pkg"
    (fun value s =>
      (match parseKeyValueArg value s.1.Imports with
       | Except.ok m => { s.1 with Imports := m }
       | Except.error _ => s.1, s.2))).WithArg "--output-file"
    (fun value s => (s.1, value))

/-- Result of `parseArchiveAndOutputPath`: the Go pair of output path
and error, with the runtime-panic possibility of `Parse` carried
through. -/
inductive ArchiveResult where
  | ok (outputPath : String)
  | error (msg : String)
  | panic (msg : String)
deriving DecidableEq, Repr

/-- Embedding of `parseArchiveAndOutputPath`: run `Parse` with the
archive callbacks over the arguments (with `fs` modelling the default
file-opening stream provider), then reject an empty output path; the
archive reached so far is returned alongside, mirroring the in-place
mutation of the Go `*archive` argument on every exit. -/
def parseArchiveAndOutputPath (fs : String → Except String (List String))
    (arguments : List String) (a : Archive) : Archive × ArchiveResult :=
  let out := Parse (archiveParser fs) arguments (a, "")
  match out.result with
  | ParseResult.panic m => (out.state.1, ArchiveResult.panic m)
  | ParseResult.error e => (out.state.1, ArchiveResult.error (ParseError.message e))
  | ParseResult.ok =>
    if out.state.2 = "" then (out.state.1, ArchiveResult.error "invalid usage: no output path")
    else (out.state.1, ArchiveResult.ok out.state.2)

/-- Claim C1 evidence: a malformed `--direct-pkg` value is rejected by
`parseKeyValueArg`, yet `parseArchiveAndOutputPath` still succeeds on an
argument list containing it, because the registered callback discards
the returned error — the malformed-pair error is swallowed, not
surfaced. -/
theorem direct_pkg_error_swallowed :
    (parseArchiveAndOutputPath noFs
        ["--direct-pkg", "malformed", "--output-file", "out.json"] emptyArchive).2 =
      ArchiveResult.ok "out.json" ∧
    parseKeyValueArg "malformed" [] =
      Except.error "could not parse key value pair: malformed" ∧
    (parseArchiveAndOutputPath noFs
        ["--direct-pkg", "malformed", "--output-file", "out.json"] emptyArchive).1.Imports =
      [] := by
  refine ⟨by decide, by rfl, by decide⟩

theorem parseBazelArguments_inv {σ : Type} (P : σ → Prop)
    (args : String → Option (String → σ → σ))
    (hargs : ∀ flag f, args flag = some f → ∀ v s, P s → P (f v s)) :
    ∀ (tokens : List String) (cur : Option (String → σ → σ)),
      (∀ f, cur = some f → ∀ v s, P s → P (f v s)) →
        ∀ st : σ, P st → P (parseBazelArguments args cur tokens st).1 := by
  intro tokens
  induction tokens with
  | nil =>
    intro cur hcur st hst
    simpa [parseBazelArguments] using hst
  | cons t rest ih =>
    intro cur hcur st hst
    cases h : args t with
    | some setter =>
      simp only [parseBazelArguments, h]
      exact ih (some setter) (fun f hf => by cases hf; exact hargs t setter h) st hst
    | none =>
      cases cur with
      | none =>
        simpa [parseBazelArguments, h] using hst
      | some f =>
        simp only [parseBazelArguments, h]
        exact ih (some f) hcur (f t st) (hcur f rfl t st hst)

theorem Parse_inv {σ : Type} (P : σ → Prop) (p : BazelArgsParser σ)
    (hargs : ∀ flag f, p.args flag = some f → ∀ v s, P s → P (f v s)) :
    ∀ (arguments : List String) (st : σ), P st → P (Parse p arguments st).state := by
  intro arguments st hst
  have hnone : ∀ f : String → σ → σ, (none : Option (String → σ → σ)) = some f →
      ∀ v s, P s → P (f v s) := by
    intro f hf
    exact absurd hf (by simp)
  cases arguments with
  | nil => simpa [Parse] using hst
  | cons first rest =>
    cases hfd : first.data.head? with
    | none => simpa [Parse, hfd] using hst
    | some c =>
      simp only [Parse, hfd]
      by_cases hc : c ≠ '@'
      · simp only [if_pos hc]
        exact parseBazelArguments_inv P p.args hargs (first :: rest) none hnone st hst
      · simp only [if_neg hc]
        by_cases hl : (first :: rest).length > 1
        · simp only [if_pos hl]
          exact hst
        · simp only [if_neg hl]
          cases hg : p.paramsReaderGetter (String.mk (first.data.drop 1)) with
          | error m => simpa [hg] using hst
          | ok tokens =>
            simp only [hg]
            exact parseBazelArguments_inv P p.args hargs tokens none hnone st hst

theorem archiveSetters_preserve (fs : String → Except String (List String)) :
    ∀ (flag : String) (f : String → ArchiveState → ArchiveState),
      (archiveParser fs).args flag = some f →
        ∀ (v : String) (s : ArchiveState), s.1.GoFiles = s.1.CompiledGoFiles →
          (f v s).1.GoFiles = (f v s).1.CompiledGoFiles := by
  intro flag f h v s hs
  simp only [archiveParser, BazelArgsParser.WithArg, NewBazelArgsParser] at h
  split_ifs at h
  · obtain rfl := Option.some.inj h
    exact hs
  · obtain rfl := Option.some.inj h
    cases hpk : parseKeyValueArg v s.1.Imports with
    | ok m => simp [hpk, hs]
    | error e => simp [hpk, hs]
  · obtain rfl := Option.some.inj h
    by_cases hsx : hasSuffix v ".go"
    · simp [hsx, hs]
    · simp [hsx, hs]
  · obtain rfl := Option.some.inj h
    exact hs
  · obtain rfl := Option.some.inj h
    exact hs
  · obtain rfl := Option.some.inj h
    exact hs

theorem parseArchive_fst (fs : String → Except String (List String))
    (arguments : List String) (a : Archive) :
    (parseArchiveAndOutputPath fs arguments a).1 =
      (Parse (archiveParser fs) arguments (a, "")).state.1 := by
  unfold parseArchiveAndOutputPath
  dsimp only
  split
  · rfl
  · rfl
  · split <;> rfl

/-- Claim C10: starting from an archive with empty GoFiles and
CompiledGoFiles, every run of `parseArchiveAndOutputPath` — over any
token sequence and any stream contents, on success and on error exits
alike — leaves GoFiles and CompiledGoFiles equal element for element:
only the --data-srcs callback touches either list and it appends a
value ending in .go to both in the same invocation. -/
theorem gofiles_match_compiled (fs : String → Except String (List String))
    (arguments : List String) (a : Archive)
    (h1 : a.GoFiles = []) (h2 : a.CompiledGoFiles = []) :
    (parseArchiveAndOutputPath fs arguments a).1.GoFiles =
      (parseArchiveAndOutputPath fs arguments a).1.CompiledGoFiles := by
  have hinv : (((a, "") : ArchiveState)).1.GoFiles =
      (((a, "") : ArchiveState)).1.CompiledGoFiles := by
    rw [h1, h2]
  have hP := Parse_inv (fun s : ArchiveState => s.1.GoFiles = s.1.CompiledGoFiles)
    (archiveParser fs) (archiveSetters_preserve fs) arguments (a, "") hinv
  rw [parseArchive_fst]
  exact hP

/-- Witness for claim C10: a concrete run mixing .go and non-.go data
sources, a malformed pair and an output path. -/
theorem gofiles_match_compiled_witness :
    (parseArchiveAndOutputPath noFs
        ["--data-srcs", "a.go", "--data-srcs", "b.txt", "--direct-pkg", "x",
          "--output-file", "out.json"] emptyArchive).1.GoFiles =
      (parseArchiveAndOutputPath noFs
        ["--data-srcs", "a.go", "--data-srcs", "b.txt", "--direct-pkg", "x",
          "--output-file", "out.json"] emptyArchive).1.CompiledGoFiles :=
  gofiles_match_compiled noFs
    ["--data-srcs", "a.go", "--data-srcs", "b.txt", "--direct-pkg", "x",
      "--output-file", "out.json"] emptyArchive rfl rfl

end ArchiveToJson
